import Mathlib

/-!
Shallow embedding of the top-K analytics queries (Q1, Q2, Q3) of the
repository, each in a time-optimized and a memory-optimized variant
(src/q1/q1_time.py, src/q1/q1_memory.py, src/q2/q2_time.py,
src/q2/q2_memory.py, src/q3/q3_time.py, src/q3/q3_memory.py).

A decoded NDJSON line is modelled by `Record`; the Polars column
operations used by the six functions (select, null filters, `group_by`
+ `len`, `sort` by count descending with key-ascending tie-break,
`head`, `explode`, `struct.field`) are modelled as total functions on
`List Record`.  Machine-level concerns (file handles, chunked scans)
are abstracted: one `List Record` stands for the decoded content of
the NDJSON file, and a re-scan of the file reads the same list.
-/

/-- The nested `user` struct of a tweet record; only its `username`
field is consumed by the queries.  A JSON `null` username is `none`. -/
structure UserStruct where
  username : Option String
deriving DecidableEq

/-- One entry of the `mentionedUsers` list of a tweet record; only its
`username` field is consumed.  A `null` entry of the list is modelled
as an entry whose `username` is `none`, which is observationally the
same for `struct.field("username")`. -/
structure MUser where
  username : Option String
deriving DecidableEq

/-- A decoded tweet record, restricted to the four fields the queries
select.  A missing field and a `null` field are both `none`, which is
how `pl.scan_ndjson` presents them to the column expressions. -/
structure Record where
  date : Option String
  user : Option UserStruct
  content : Option String
  mentionedUsers : Option (List MUser)
deriving DecidableEq

/-- Code-point comparison of characters, as used by Python string
comparison and by the binary ordering Polars applies to Utf8 columns
(UTF-8 byte order coincides with code-point order). -/
def charLE (a b : Char) : Bool := a.toNat ≤ b.toNat

/-- Lexicographic (code-point) comparison of character lists. -/
def lexLE : List Char → List Char → Bool
  | [], _ => true
  | _ :: _, [] => false
  | a :: as, b :: bs =>
    if a.toNat < b.toNat then true
    else if b.toNat < a.toNat then false
    else lexLE as bs

/-- Lexicographic comparison of strings by code points: the order used
by Python `sorted` on `str` keys and by Polars `sort` on Utf8 columns. -/
def strLE (a b : String) : Bool := lexLE a.data b.data

/-- The deterministic total order of the Top-K selector, shared by all
six implementations: count descending first, key ascending (by `kle`)
as the tie-break.  This is Polars
`sort([count, key], descending=[True, False])` and Python
`sorted(key=lambda x: (-x[1], x[0]))`. -/
def countOrd {K : Type} (kle : K → K → Bool) (a b : K × Nat) : Prop :=
  b.2 < a.2 ∨ (a.2 = b.2 ∧ kle a.1 b.1 = true)

instance countOrdDec {K : Type} (kle : K → K → Bool) :
    DecidableRel (countOrd kle) := fun a b => by
  unfold countOrd; infer_instance

/-- The grouping/counting engine: `group_by(key).agg(pl.len())` over a
flattened key sequence, also `collections.Counter` built from the same
sequence.  One row `(k, n)` per distinct key `k`, where `n` is the
number of occurrences of `k` in the input sequence. -/
def countKeys {K : Type} [DecidableEq K] (ks : List K) : List (K × Nat) :=
  ks.dedup.map fun k => (k, ks.count k)

/-- The Top-K selector: sort the count rows by `countOrd` and keep the
first `k` rows (`sort(...).head(k)`, or `sorted(...)[:k]`).  The sort
is modelled by insertion sort; since `countOrd` is total and
antisymmetric on rows with distinct keys, every sort produces this
sequence. -/
def topKSel {K : Type} (kle : K → K → Bool) (k : Nat)
    (acc : List (K × Nat)) : List (K × Nat) :=
  (acc.insertionSort (countOrd kle)).take k

/-- Polars `col.str.slice(0, 10)`: the first ten characters. -/
def strSlice10 (s : String) : String := String.mk (s.data.take 10)

/-- Digit run to number, for the date parser. -/
def digitsToNat (cs : List Char) : Nat :=
  cs.foldl (fun n c => 10 * n + (c.toNat - 48)) 0

/-- Split a character list on the `-` separator. -/
def splitDash : List Char → List (List Char)
  | [] => [[]]
  | c :: rest =>
    let r := splitDash rest
    if c = '-' then [] :: r
    else
      match r with
      | [] => [[c]]
      | h :: t => (c :: h) :: t

/-- Days of each month, with the Gregorian leap rule, as validated by
`datetime.date`. -/
def daysInMonth (y m : Nat) : Nat :=
  if m = 2 then
    if (y % 4 = 0 ∧ y % 100 ≠ 0) ∨ y % 400 = 0 then 29 else 28
  else if m = 4 ∨ m = 6 ∨ m = 9 ∨ m = 11 then 30
  else 31

/-- Python `datetime.strptime(s, "%Y-%m-%d").date()`: exactly three
dash-separated digit groups, `%Y` exactly four digits, `%m` and `%d`
one or two digits, month in 1..12, day in 1..days-of-month, year at
least 1 (`datetime.MINYEAR`); any other input raises, modelled as
`none`. -/
def parseDate (s : String) : Option (Nat × Nat × Nat) :=
  match splitDash s.data with
  | [ys, ms, ds] =>
    if ys.all Char.isDigit ∧ ys.length = 4 ∧
       ms.all Char.isDigit ∧ 1 ≤ ms.length ∧ ms.length ≤ 2 ∧
       ds.all Char.isDigit ∧ 1 ≤ ds.length ∧ ds.length ≤ 2 then
      let y := digitsToNat ys
      let m := digitsToNat ms
      let d := digitsToNat ds
      if 1 ≤ y ∧ 1 ≤ m ∧ m ≤ 12 ∧ 1 ≤ d ∧ d ≤ daysInMonth y m then
        some (y, m, d)
      else none
    else none
  | _ => none

example : parseDate "2021-02-24" = some (2021, 2, 24) := by decide
example : parseDate "not-a-date" = none := by decide
example : parseDate "2021-02-29" = none := by decide
example : parseDate "2020-02-29" = some (2020, 2, 29) := by decide
example : parseDate "2021-2-2" = some (2021, 2, 2) := by decide
example : strSlice10 "2021-02-24T09:23:35+00:00" = "2021-02-24" := by decide
example : topKSel strLE 10 (countKeys ["b", "a", "b"]) = [("b", 2), ("a", 1)] := by decide

/-- Derived author handle: `pl.col("user").struct.field("username")`,
which is null when `user` is null and when `username` is null. -/
def Record.username (r : Record) : Option String :=
  r.user.bind UserStruct.username

/-- The row produced for one record by the shared Q1 select+filter
pipeline (`q1_time.py` lines 45-51, `q1_memory.py` lines 48-59): the
pair `(date_only, username)` with `date_only = date.str.slice(0, 10)`,
kept only when both columns are non-null.  Slicing a non-null string
never yields null, so the `date_only` null filter is a null filter on
`date`. -/
def q1Row (r : Record) : Option (String × String) :=
  match r.date.map strSlice10, r.username with
  | some d, some u => some (d, u)
  | _, _ => none

/-- The filtered two-column frame both Q1 variants aggregate: in
`q1_time.py` it is materialized once (`df`), in `q1_memory.py` the same
`lazy_df` pipeline is re-evaluated at every `collect()` against the
unchanged file, producing the same rows. -/
def q1Pairs (recs : List Record) : List (String × String) :=
  recs.filterMap q1Row

/-- The `date_only` column of the filtered frame. -/
def q1Dates (recs : List Record) : List String :=
  (q1Pairs recs).map Prod.fst

/-- First pass of Q1: group by `date_only`, count, sort by count
descending with date ascending tie-break, `head(10)`. -/
def q1TopDates (recs : List Record) : List (String × Nat) :=
  topKSel strLE 10 (countKeys (q1Dates recs))

/-- Per-date user aggregation of Q1: filter the two-column frame to one
`date_only` value, group by `username`, count, sort by count descending
with username ascending tie-break, `head(1)`. -/
def q1UserTop (df : List (String × String)) (d : String) : List (String × Nat) :=
  topKSel strLE 1 (countKeys ((df.filter fun p => p.1 == d).map Prod.snd))

/-- The result-building loop of both Q1 variants: for each top date
row, look up the winning username (`top_user["username"][0]`, an
IndexError when the frame is empty, modelled as `none`) and convert the
date string with `strptime` (a ValueError on a malformed date string,
modelled as `none`); either failure propagates to the caller. -/
def q1Collect (df : List (String × String)) :
    List (String × Nat) → Option (List ((Nat × Nat × Nat) × String))
  | [] => some []
  | row :: rest =>
    match (q1UserTop df row.1).head? with
    | none => none
    | some u =>
      match parseDate row.1 with
      | none => none
      | some dd =>
        match q1Collect df rest with
        | none => none
        | some l => some ((dd, u.1) :: l)

/-- `q1_memory(file_path)` of src/q1/q1_memory.py: lazy pipeline, one
aggregation scan for the top dates, then one scan per top date. -/
def q1_memory (recs : List Record) : Option (List ((Nat × Nat × Nat) × String)) :=
  q1Collect (q1Pairs recs) (q1TopDates recs)

/-- `q1_time(file_path)` of src/q1/q1_time.py: the same select+filter
pipeline materialized once into `df`, then the same aggregations over
the materialized frame. -/
def q1_time (recs : List Record) : Option (List ((Nat × Nat × Nat) × String)) :=
  let df := q1Pairs recs
  q1Collect df (topKSel strLE 10 (countKeys (df.map Prod.fst)))

/-- Number of scans of the NDJSON file performed by `q1_memory`: the
first `collect()` building `top_dates`, plus one `collect()` per row of
`top_dates` inside the loop (each `collect()` of the lazy frame scans
the file once, per the module's own docstring). -/
def q1MemoryPasses (recs : List Record) : Nat :=
  1 + (q1TopDates recs).length

/-- The emoji code-point test.  Modelled from the spec: the external
`emoji` package's glyph table is not part of this repository; the spec
describes Q2 extraction as scanning the text for emoji code points, so
the table is approximated by one contiguous code-point block.  The
claims about Q2 depend only on occurrence counting, not on which code
points are emoji. -/
def isEmojiChar (c : Char) : Bool :=
  decide (0x1F300 ≤ c.toNat ∧ c.toNat ≤ 0x1FAFF)

/-- `emoji.emoji_list(s)` projected to its `emoji` entries: every emoji
glyph occurrence of `s`, in order, with duplicates kept. -/
def emojiList (s : String) : List Char :=
  s.data.filter isEmojiChar

/-- The non-null `content` column both Q2 variants select
(`select([pl.col("content")]).filter(is_not_null)`). -/
def q2Contents (recs : List Record) : List String :=
  recs.filterMap Record.content

/-- The flattened emoji key sequence of Q2: per non-null content, the
emoji occurrences of the text when it is non-empty (both variants guard
with Python truthiness, `if content:` and `if x else []`). -/
def q2Keys (recs : List Record) : List Char :=
  (q2Contents recs).flatMap fun c => if c ≠ "" then emojiList c else []

/-- `q2_memory(file_path)` of src/q2/q2_memory.py: row-by-row
`Counter` accumulation over the materialized content column, then
`sorted(counter.items(), key=lambda x: (-x[1], x[0]))[:10]`. -/
def q2_memory (recs : List Record) : List (Char × Nat) :=
  (List.insertionSort (countOrd charLE) (countKeys (q2Keys recs))).take 10

/-- Polars `explode` on a list column: an empty list explodes to a
single null row, a non-empty list to one row per element. -/
def explodeCol {A : Type} (ls : List (List A)) : List (Option A) :=
  ls.flatMap fun l => if l.isEmpty then [none] else l.map some

/-- `q2_time(file_path)` of src/q2/q2_time.py: map each content to its
emoji list, explode, drop the null rows, group by emoji, count, sort by
count descending with emoji ascending tie-break, `head(10)`. -/
def q2_time (recs : List Record) : List (Char × Nat) :=
  let df := (q2Contents recs).map fun x => if x ≠ "" then emojiList x else []
  let exploded := (explodeCol df).filterMap id
  topKSel charLE 10 (countKeys exploded)

/-- The `mentionedUsers` rows both Q3 variants keep:
`filter(is_not_null & (list.len() > 0))`. -/
def q3Lists (recs : List Record) : List (List MUser) :=
  (recs.filterMap Record.mentionedUsers).filter fun l => decide (0 < l.length)

/-- The flattened username key sequence of Q3: explode the kept mention
lists, take `struct.field("username")` of each row, drop the null
usernames. -/
def q3Keys (recs : List Record) : List String :=
  ((explodeCol (q3Lists recs)).map fun o => o.bind MUser.username).filterMap id

/-- `q3_memory(file_path)` of src/q3/q3_memory.py: one lazy pipeline —
filter, explode, extract username, drop nulls, group, count, sort,
`head(10)` — collected once at the end. -/
def q3_memory (recs : List Record) : List (String × Nat) :=
  topKSel strLE 10 (countKeys (q3Keys recs))

/-- `q3_time(file_path)` of src/q3/q3_time.py: the same pipeline with
the filtered frame materialized before the explode/extract/count
steps. -/
def q3_time (recs : List Record) : List (String × Nat) :=
  let df := q3Lists recs
  let usernames := ((explodeCol df).map fun o => o.bind MUser.username).filterMap id
  topKSel strLE 10 (countKeys usernames)

/-- Untyped view of the Python values the three queries return, used to
state claims about the shape of the result entries. -/
inductive PyVal where
  | pstr : String → PyVal
  | pint : Nat → PyVal
  | pdate : Nat → Nat → Nat → PyVal
  | ptup : PyVal → PyVal → PyVal
deriving DecidableEq

/-- The Python value `q1_memory` returns: a list of
`(datetime.date, str)` tuples (no count component). -/
def q1ResultPy (recs : List Record) : Option (List PyVal) :=
  (q1_memory recs).map (List.map fun e =>
    PyVal.ptup (PyVal.pdate e.1.1 e.1.2.1 e.1.2.2) (PyVal.pstr e.2))

/-- The Python value `q2_memory` returns: a list of `(str, int)`
tuples. -/
def q2ResultPy (recs : List Record) : List PyVal :=
  (q2_memory recs).map fun e => PyVal.ptup (PyVal.pstr e.1.toString) (PyVal.pint e.2)

/-- The Python value `q3_memory` returns: a list of `(str, int)`
tuples. -/
def q3ResultPy (recs : List Record) : List PyVal :=
  (q3_memory recs).map fun e => PyVal.ptup (PyVal.pstr e.1) (PyVal.pint e.2)

/-- A result entry of the shape the spec prescribes: a pair whose
second component is an integer count. -/
def isKeyCountPair : PyVal → Bool
  | PyVal.ptup _ (PyVal.pint _) => true
  | _ => false

/-- A Q1 result entry as the code builds it: a (date, username-string)
pair with no count. -/
def isDateUserPair : PyVal → Bool
  | PyVal.ptup (PyVal.pdate _ _ _) (PyVal.pstr _) => true
  | _ => false

theorem charToNat_inj {a b : Char} (h : a.toNat = b.toNat) : a = b :=
  Char.ext (UInt32.ext h)

theorem charLE_total (a b : Char) : charLE a b = true ∨ charLE b a = true := by
  unfold charLE
  rcases Nat.le_total a.toNat b.toNat with h | h
  · left; exact decide_eq_true h
  · right; exact decide_eq_true h

theorem charLE_trans {a b c : Char} (h1 : charLE a b = true)
    (h2 : charLE b c = true) : charLE a c = true := by
  unfold charLE at *
  exact decide_eq_true (Nat.le_trans (of_decide_eq_true h1) (of_decide_eq_true h2))

theorem charLE_antisymm {a b : Char} (h1 : charLE a b = true)
    (h2 : charLE b a = true) : a = b := by
  unfold charLE at *
  exact charToNat_inj (Nat.le_antisymm (of_decide_eq_true h1) (of_decide_eq_true h2))

theorem lexLE_total : ∀ (a b : List Char), lexLE a b = true ∨ lexLE b a = true
  | [], _ => Or.inl rfl
  | _ :: _, [] => Or.inr rfl
  | x :: xs, y :: ys => by
    rcases Nat.lt_trichotomy x.toNat y.toNat with h | h | h
    · left
      simp [lexLE, h]
    · have heq : ¬ x.toNat < y.toNat := by omega
      have heq' : ¬ y.toNat < x.toNat := by omega
      rcases lexLE_total xs ys with ht | ht
      · left; simp [lexLE, heq, heq', ht]
      · right; simp [lexLE, heq, heq', ht]
    · right
      simp [lexLE, h]

theorem lexLE_trans : ∀ {a b c : List Char}, lexLE a b = true →
    lexLE b c = true → lexLE a c = true
  | [], _, _, _, _ => rfl
  | _ :: _, [], _, hab, _ => by simp [lexLE] at hab
  | _ :: _, _ :: _, [], _, hbc => by simp [lexLE] at hbc
  | x :: xs, y :: ys, z :: zs, hab, hbc => by
    simp only [lexLE] at hab hbc ⊢
    by_cases h1 : x.toNat < y.toNat
    · by_cases h2 : y.toNat < z.toNat
      · have hxz : x.toNat < z.toNat := by omega
        simp [hxz]
      · by_cases h2' : z.toNat < y.toNat
        · simp [h2, h2'] at hbc
        · have hxz : x.toNat < z.toNat := by omega
          simp [hxz]
    · by_cases h1' : y.toNat < x.toNat
      · simp [h1, h1'] at hab
      · have hxy : lexLE xs ys = true := by simpa [h1, h1'] using hab
        by_cases h2 : y.toNat < z.toNat
        · have hxz : x.toNat < z.toNat := by omega
          simp [hxz]
        · by_cases h2' : z.toNat < y.toNat
          · simp [h2, h2'] at hbc
          · have hyz : lexLE ys zs = true := by simpa [h2, h2'] using hbc
            have hnz : ¬ x.toNat < z.toNat := by omega
            have hnz' : ¬ z.toNat < x.toNat := by omega
            simp [hnz, hnz']
            exact lexLE_trans hxy hyz

theorem lexLE_antisymm : ∀ {a b : List Char}, lexLE a b = true →
    lexLE b a = true → a = b
  | [], [], _, _ => rfl
  | [], _ :: _, _, hba => by simp [lexLE] at hba
  | _ :: _, [], hab, _ => by simp [lexLE] at hab
  | x :: xs, y :: ys, hab, hba => by
    simp only [lexLE] at hab hba
    by_cases h : x.toNat < y.toNat
    · have h' : ¬ y.toNat < x.toNat := by omega
      simp [h, h'] at hba
    · by_cases h' : y.toNat < x.toNat
      · simp [h, h'] at hab
      · have hxy : lexLE xs ys = true := by simpa [h, h'] using hab
        have hyx : lexLE ys xs = true := by simpa [h', h] using hba
        have hx : x = y := charToNat_inj (by omega)
        rw [hx, lexLE_antisymm hxy hyx]

theorem strLE_total (a b : String) : strLE a b = true ∨ strLE b a = true :=
  lexLE_total a.data b.data

theorem strLE_trans {a b c : String} (h1 : strLE a b = true)
    (h2 : strLE b c = true) : strLE a c = true :=
  lexLE_trans h1 h2

theorem strLE_antisymm {a b : String} (h1 : strLE a b = true)
    (h2 : strLE b a = true) : a = b := by
  cases a; cases b
  exact congrArg String.mk (lexLE_antisymm h1 h2)

theorem countOrd_total_of {K : Type} (kle : K → K → Bool)
    (h : ∀ a b, kle a b = true ∨ kle b a = true) :
    ∀ a b : K × Nat, countOrd kle a b ∨ countOrd kle b a := by
  intro a b
  rcases Nat.lt_trichotomy a.2 b.2 with hlt | heq | hgt
  · right; exact Or.inl hlt
  · rcases h a.1 b.1 with hk | hk
    · left; exact Or.inr ⟨heq, hk⟩
    · right; exact Or.inr ⟨heq.symm, hk⟩
  · left; exact Or.inl hgt

theorem countOrd_trans_of {K : Type} (kle : K → K → Bool)
    (h : ∀ {a b c}, kle a b = true → kle b c = true → kle a c = true) :
    ∀ a b c : K × Nat, countOrd kle a b → countOrd kle b c → countOrd kle a c := by
  intro a b c hab hbc
  rcases hab with h1 | ⟨h1, h1k⟩ <;> rcases hbc with h2 | ⟨h2, h2k⟩
  · exact Or.inl (Nat.lt_trans h2 h1)
  · exact Or.inl (h2 ▸ h1)
  · exact Or.inl (h1 ▸ h2)
  · exact Or.inr ⟨h1.trans h2, h h1k h2k⟩

instance : IsTotal (String × Nat) (countOrd strLE) :=
  ⟨countOrd_total_of strLE strLE_total⟩

instance : IsTrans (String × Nat) (countOrd strLE) :=
  ⟨countOrd_trans_of strLE fun h1 h2 => strLE_trans h1 h2⟩

instance : IsTotal (Char × Nat) (countOrd charLE) :=
  ⟨countOrd_total_of charLE charLE_total⟩

instance : IsTrans (Char × Nat) (countOrd charLE) :=
  ⟨countOrd_trans_of charLE fun h1 h2 => charLE_trans h1 h2⟩

theorem length_topKSel {K : Type} (kle : K → K → Bool) (k : Nat)
    (acc : List (K × Nat)) : (topKSel kle k acc).length = min k acc.length := by
  simp [topKSel, List.length_take, List.length_insertionSort]

theorem length_countKeys {K : Type} [DecidableEq K] (ks : List K) :
    (countKeys ks).length = ks.dedup.length := by
  simp [countKeys]

theorem map_fst_countKeys {K : Type} [DecidableEq K] (ks : List K) :
    (countKeys ks).map Prod.fst = ks.dedup := by
  simp only [countKeys, List.map_map]
  exact List.map_id ks.dedup

theorem pairwise_topKSel {K : Type} (kle : K → K → Bool)
    [IsTotal (K × Nat) (countOrd kle)] [IsTrans (K × Nat) (countOrd kle)]
    (k : Nat) (acc : List (K × Nat)) :
    (topKSel kle k acc).Pairwise (countOrd kle) :=
  List.Pairwise.sublist (List.take_sublist k _)
    (List.sorted_insertionSort (countOrd kle) acc)

theorem nodup_keys_topKSel {K : Type} [DecidableEq K] (kle : K → K → Bool)
    (k : Nat) (ks : List K) :
    ((topKSel kle k (countKeys ks)).map Prod.fst).Nodup := by
  have hperm : (List.insertionSort (countOrd kle) (countKeys ks)).Perm (countKeys ks) :=
    List.perm_insertionSort _ _
  have hsorted : ((List.insertionSort (countOrd kle) (countKeys ks)).map Prod.fst).Nodup := by
    refine List.Nodup.perm ?_ (hperm.map Prod.fst).symm
    rw [map_fst_countKeys]
    exact List.nodup_dedup ks
  exact List.Nodup.sublist (List.Sublist.map Prod.fst (List.take_sublist k _)) hsorted

theorem strict_pairwise_topKSel {K : Type} [DecidableEq K] (kle : K → K → Bool)
    [IsTotal (K × Nat) (countOrd kle)] [IsTrans (K × Nat) (countOrd kle)]
    (k : Nat) (ks : List K) :
    (topKSel kle k (countKeys ks)).Pairwise
      (fun a b => b.2 < a.2 ∨ (a.2 = b.2 ∧ kle a.1 b.1 = true ∧ a.1 ≠ b.1)) := by
  have h1 := pairwise_topKSel kle k (countKeys ks)
  have h2 : (topKSel kle k (countKeys ks)).Pairwise (fun a b => a.1 ≠ b.1) :=
    List.pairwise_map.mp (nodup_keys_topKSel kle k ks)
  refine (h1.and h2).imp ?_
  rintro a b ⟨hord, hne⟩
  rcases hord with h | ⟨h, hk⟩
  · exact Or.inl h
  · exact Or.inr ⟨h, hk, hne⟩

theorem chain'_topKSel {K : Type} [DecidableEq K] (kle : K → K → Bool)
    [IsTotal (K × Nat) (countOrd kle)] [IsTrans (K × Nat) (countOrd kle)]
    (k : Nat) (ks : List K) :
    (topKSel kle k (countKeys ks)).Chain'
      (fun a b => b.2 < a.2 ∨ (a.2 = b.2 ∧ kle a.1 b.1 = true ∧ a.1 ≠ b.1)) :=
  (strict_pairwise_topKSel kle k ks).chain'

theorem count_filterMap_eq_countP {A B : Type} [DecidableEq B]
    (f : A → Option B) (l : List A) (b : B) :
    (l.filterMap f).count b = l.countP (fun a => f a == some b) := by
  induction l with
  | nil => simp
  | cons a rest ih =>
    rcases h : f a with _ | c
    · simp [List.filterMap_cons, List.countP_cons, h, ih]
    · by_cases hc : c = b <;>
        simp [List.filterMap_cons, List.countP_cons, List.count_cons, h, ih, hc]

theorem filterMap_id_explodeCol {A : Type} (ls : List (List A)) :
    (explodeCol ls).filterMap id = ls.flatMap id := by
  induction ls with
  | nil => simp [explodeCol]
  | cons l rest ih =>
    rcases l with _ | ⟨a, as⟩
    · simp [explodeCol, List.flatMap_cons] at ih ⊢
      exact ih
    · simp only [explodeCol, List.flatMap_cons, List.isEmpty_cons,
        List.filterMap_append] at ih ⊢
      simp only [Bool.false_eq_true, if_false, List.filterMap_map,
        Function.comp_def, id_eq, List.filterMap_some, ih]

theorem mem_q1TopDates_keys {recs : List Record} {d : String}
    (h : d ∈ (q1TopDates recs).map Prod.fst) : d ∈ q1Dates recs := by
  unfold q1TopDates topKSel at h
  have h2 : d ∈ (List.insertionSort (countOrd strLE) (countKeys (q1Dates recs))).map
      Prod.fst :=
    (List.Sublist.map Prod.fst (List.take_sublist 10 _)).subset h
  have h3 : d ∈ (countKeys (q1Dates recs)).map Prod.fst :=
    (((List.perm_insertionSort (countOrd strLE) _).map Prod.fst).mem_iff).mp h2
  rw [map_fst_countKeys] at h3
  exact List.mem_dedup.mp h3

theorem q1UserTop_ne_nil {df : List (String × String)} {d : String}
    (h : ∃ p ∈ df, p.1 = d) : q1UserTop df d ≠ [] := by
  rcases h with ⟨p, hp, hpd⟩
  have hmem : p.2 ∈ (df.filter fun q => q.1 == d).map Prod.snd := by
    refine List.mem_map.mpr ⟨p, ?_, rfl⟩
    exact List.mem_filter.mpr ⟨hp, by simp [hpd]⟩
  have hne : ((df.filter fun q => q.1 == d).map Prod.snd).dedup ≠ [] :=
    List.ne_nil_of_mem (List.mem_dedup.mpr hmem)
  have hlen : 0 < (q1UserTop df d).length := by
    rw [q1UserTop, length_topKSel, length_countKeys]
    have := List.length_pos.mpr hne
    omega
  exact List.ne_nil_of_length_pos hlen

theorem q1UserTop_head_isSome {df : List (String × String)} {d : String}
    (h : ∃ p ∈ df, p.1 = d) : (q1UserTop df d).head?.isSome = true :=
  List.head?_isSome.mpr (q1UserTop_ne_nil h)

theorem q1Collect_eq_none_iff (df : List (String × String)) :
    ∀ rows : List (String × Nat),
    (∀ row ∈ rows, (q1UserTop df row.1).head?.isSome = true) →
    (q1Collect df rows = none ↔ ∃ p ∈ rows, parseDate p.1 = none)
  | [], _ => by simp [q1Collect]
  | row :: rest, h => by
    have hrow := h row (List.mem_cons_self row rest)
    rcases Option.isSome_iff_exists.mp hrow with ⟨u, hu⟩
    have ih := q1Collect_eq_none_iff df rest fun q hq => h q (List.mem_cons_of_mem _ hq)
    simp only [q1Collect, hu]
    rcases hp : parseDate row.1 with _ | dd
    · constructor
      · intro _
        exact ⟨row, List.mem_cons_self row rest, hp⟩
      · intro _
        rfl
    · rcases hrec : q1Collect df rest with _ | l
      · simp only [hrec]
        constructor
        · intro _
          rcases ih.mp hrec with ⟨p, hmem, hp2⟩
          exact ⟨p, List.mem_cons_of_mem _ hmem, hp2⟩
        · intro _
          trivial
      · simp only [hrec]
        constructor
        · intro hfalse
          cases hfalse
        · rintro ⟨p, hmem, hp2⟩
          rcases List.mem_cons.mp hmem with heq | hmem2
          · rw [heq, hp] at hp2
            cases hp2
          · have hcon := ih.mpr ⟨p, hmem2, hp2⟩
            rw [hrec] at hcon
            cases hcon

theorem q1Collect_length (df : List (String × String)) :
    ∀ (rows : List (String × Nat)) (l : List ((Nat × Nat × Nat) × String)),
    q1Collect df rows = some l → l.length = rows.length
  | [], l, h => by
    simp [q1Collect] at h
    simp [← h]
  | row :: rest, l, h => by
    simp only [q1Collect] at h
    rcases hu : (q1UserTop df row.1).head? with _ | u <;> rw [hu] at h
    · cases h
    · rcases hp : parseDate row.1 with _ | dd <;> rw [hp] at h
      · cases h
      · rcases hrec : q1Collect df rest with _ | l' <;> rw [hrec] at h
        · cases h
        · cases h
          simp [q1Collect_length df rest l' hrec]

theorem q1Dates_count (recs : List Record) (d : String) :
    (q1Dates recs).count d =
      recs.countP fun r => (r.date.map strSlice10 == some d) && r.username.isSome := by
  induction recs with
  | nil => simp [q1Dates, q1Pairs]
  | cons r rest ih =>
    rcases hd : r.date with _ | ds <;> rcases hu : r.username with _ | u <;>
      simp only [q1Dates, q1Pairs, List.filterMap_cons, q1Row, hd, hu, Option.map_none,
        Option.map_some, List.countP_cons, Option.isSome_none, Option.isSome_some,
        Bool.and_false, Bool.and_true, if_false] at ih ⊢ <;>
      simp [ih]
    by_cases hds : strSlice10 ds = d <;> simp [List.count_cons, hds, ih]

theorem count_flatMap_emoji (cs : List String) (g : Char) :
    ((cs.flatMap fun c => if c ≠ "" then emojiList c else []).count g) =
      (cs.map fun c => (emojiList c).count g).sum := by
  induction cs with
  | nil => simp
  | cons c rest ih =>
    simp only [List.flatMap_cons, List.map_cons, List.sum_cons, List.count_append]
    rw [ih]
    by_cases hc : c = ""
    · have h0 : emojiList "" = [] := rfl
      simp [hc, h0]
    · simp [hc]

theorem q2Keys_count (recs : List Record) (g : Char) :
    (q2Keys recs).count g =
      (recs.map fun r => (emojiList (r.content.getD "")).count g).sum := by
  rw [q2Keys, count_flatMap_emoji]
  induction recs with
  | nil => simp [q2Contents]
  | cons r rest ih =>
    rcases hc : r.content with _ | c
    · simp only [q2Contents, List.filterMap_cons, hc, List.map_cons, List.sum_cons,
        Option.getD_none] at ih ⊢
      have h0 : emojiList "" = [] := rfl
      simp [h0, ih]
    · simp only [q2Contents, List.filterMap_cons, hc, List.map_cons, List.sum_cons,
        Option.getD_some] at ih ⊢
      simp [ih]

theorem count_explode_usernames (lss : List (List MUser)) (u : String) :
    ((((explodeCol lss).map fun o => o.bind MUser.username).filterMap id).count u) =
      (lss.map fun l => l.countP fun m => m.username == some u).sum := by
  induction lss with
  | nil => simp [explodeCol]
  | cons l rest ih =>
    simp only [explodeCol, List.flatMap_cons, List.map_append, List.filterMap_append,
      List.count_append, List.map_cons, List.sum_cons] at ih ⊢
    rw [ih]
    rcases l with _ | ⟨m0, ms⟩
    · simp
    · simp only [List.isEmpty_cons, Bool.false_eq_true, if_false]
      have hcnt : (((List.map some (m0 :: ms)).map fun o => o.bind MUser.username).filterMap
          id).count u = (m0 :: ms).countP fun m => m.username == some u := by
        rw [List.map_map]
        have h1 : ((fun o => Option.bind o MUser.username) ∘ some) = MUser.username := by
          funext m
          rfl
        rw [h1, List.filterMap_map]
        have h2 : (id ∘ MUser.username) = MUser.username := rfl
        rw [h2]
        exact count_filterMap_eq_countP MUser.username (m0 :: ms) u
      simp only [List.map_cons] at hcnt ⊢
      rw [hcnt]

theorem q3Keys_count (recs : List Record) (u : String) :
    (q3Keys recs).count u =
      (recs.map fun r =>
        match r.mentionedUsers with
        | some l => if l.isEmpty then 0 else l.countP fun m => m.username == some u
        | none => 0).sum := by
  rw [q3Keys, count_explode_usernames]
  induction recs with
  | nil => simp [q3Lists]
  | cons r rest ih =>
    rcases hm : r.mentionedUsers with _ | l
    · simp only [q3Lists, List.filterMap_cons, hm, List.map_cons, List.sum_cons] at ih ⊢
      simp [ih]
    · rcases l with _ | ⟨m0, ms⟩
      · simp only [q3Lists, List.filterMap_cons, hm, List.map_cons, List.sum_cons,
          List.filter_cons, List.length_nil] at ih ⊢
        simp [ih]
      · simp only [q3Lists, List.filterMap_cons, hm, List.map_cons, List.sum_cons,
          List.filter_cons, List.length_cons] at ih ⊢
        have hpos : decide (0 < ms.length + 1) = true := by simp
        simp only [hpos, if_true, List.map_cons, List.sum_cons]
        rw [ih]
        simp [List.isEmpty_cons]

/-- Demo record: a tweet on day 2021-02-01 by user A. -/
def recA : Record := ⟨some "2021-02-01T10:00:00+00:00", some ⟨some "A"⟩, none, none⟩

/-- Demo record: a second tweet on day 2021-02-01 by user A. -/
def recA2 : Record := ⟨some "2021-02-01T11:00:00+00:00", some ⟨some "A"⟩, none, none⟩

/-- Demo record: a tweet on day 2021-02-01 by user B. -/
def recB : Record := ⟨some "2021-02-01T12:00:00+00:00", some ⟨some "B"⟩, none, none⟩

/-- Demo record: a tweet on day 2021-02-02 by user C. -/
def recC : Record := ⟨some "2021-02-02T12:00:00+00:00", some ⟨some "C"⟩, none, none⟩

/-- Demo record: a non-null date that is not a calendar date, with a
non-null username. -/
def recBad : Record := ⟨some "not-a-date", some ⟨some "u"⟩, none, none⟩

/-- Demo record: content with the folded-hands emoji twice. -/
def recE1 : Record := ⟨none, none, some "🙏🙏", none⟩

/-- Demo record: content with two distinct emoji. -/
def recE2 : Record := ⟨none, none, some "🙏😀", none⟩

/-- Demo record: null content. -/
def recE3 : Record := ⟨none, none, none, none⟩

/-- Demo record: mentions X and Y. -/
def recM1 : Record := ⟨none, none, none, some [⟨some "X"⟩, ⟨some "Y"⟩]⟩

/-- Demo record: mentions X. -/
def recM2 : Record := ⟨none, none, none, some [⟨some "X"⟩]⟩

/-- Demo record: null mention list. -/
def recM3 : Record := ⟨none, none, none, none⟩

/-- Demo record: empty mention list. -/
def recM4 : Record := ⟨none, none, none, some []⟩

/-- C1: for every query (Q1, Q2, Q3) and every input source, the
time-optimized implementation and the memory-optimized implementation
return exactly the same result sequence (same keys, same counts where
present, same order). -/
theorem time_memory_equivalence : ∀ recs : List Record,
    q1_time recs = q1_memory recs ∧
    q2_time recs = q2_memory recs ∧
    q3_time recs = q3_memory recs := by
  intro recs
  refine ⟨rfl, ?_, rfl⟩
  show topKSel charLE 10 (countKeys ((explodeCol ((q2Contents recs).map
      fun x => if x ≠ "" then emojiList x else [])).filterMap id)) = q2_memory recs
  rw [filterMap_id_explodeCol, List.flatMap_map]
  rfl

/-- C2: for every query and every input, the returned sequence is
sorted by count descending, and any two consecutive entries with equal
counts are ordered by key ascending in lexicographic order;
consequently no two entries share the same key.  For Q1 the order of
the returned sequence is the order of the `top_dates` rows
(`q1TopDates`), whose keys are the truncated date strings the sort
operates on. -/
theorem results_sorted_and_distinct : ∀ recs : List Record,
    ((q2_memory recs).Chain' fun a b =>
      b.2 < a.2 ∨ (a.2 = b.2 ∧ charLE a.1 b.1 = true ∧ a.1 ≠ b.1)) ∧
    ((q2_memory recs).map Prod.fst).Nodup ∧
    ((q3_memory recs).Chain' fun a b =>
      b.2 < a.2 ∨ (a.2 = b.2 ∧ strLE a.1 b.1 = true ∧ a.1 ≠ b.1)) ∧
    ((q3_memory recs).map Prod.fst).Nodup ∧
    ((q1TopDates recs).Chain' fun a b =>
      b.2 < a.2 ∨ (a.2 = b.2 ∧ strLE a.1 b.1 = true ∧ a.1 ≠ b.1)) ∧
    ((q1TopDates recs).map Prod.fst).Nodup := by
  intro recs
  exact ⟨chain'_topKSel charLE 10 (q2Keys recs),
    nodup_keys_topKSel charLE 10 (q2Keys recs),
    chain'_topKSel strLE 10 (q3Keys recs),
    nodup_keys_topKSel strLE 10 (q3Keys recs),
    chain'_topKSel strLE 10 (q1Dates recs),
    nodup_keys_topKSel strLE 10 (q1Dates recs)⟩

/-- C3 counterexample: on a concrete two-record input, the Q1 result
entries are `(date, username)` tuples whose second component is a
string, not `(Key, count)` pairs carrying an integer count, so the
claimed result shape fails for Q1. -/
theorem q1_result_shape_counterexample :
    q1ResultPy [recA, recC] =
      some [PyVal.ptup (PyVal.pdate 2021 2 1) (PyVal.pstr "A"),
        PyVal.ptup (PyVal.pdate 2021 2 2) (PyVal.pstr "C")] ∧
    isKeyCountPair (PyVal.ptup (PyVal.pdate 2021 2 1) (PyVal.pstr "A")) = false :=
  ⟨by decide, rfl⟩

/-- C3 amended: each query's public operation takes the source path as
its only parameter with K fixed internally at 10; Q2 and Q3 return
ordered sequences of (string key, integer count) pairs, while Q1
returns ordered (date, username) pairs that carry no count. -/
theorem query_result_shapes : ∀ recs : List Record,
    (q2ResultPy recs).all isKeyCountPair = true ∧
    (q3ResultPy recs).all isKeyCountPair = true ∧
    ((q1ResultPy recs).getD []).all isDateUserPair = true := by
  intro recs
  refine ⟨?_, ?_, ?_⟩
  · refine List.all_eq_true.mpr ?_
    intro x hx
    rcases List.mem_map.mp hx with ⟨e, _, rfl⟩
    rfl
  · refine List.all_eq_true.mpr ?_
    intro x hx
    rcases List.mem_map.mp hx with ⟨e, _, rfl⟩
    rfl
  · rcases hq : q1_memory recs with _ | l
    · simp [q1ResultPy, hq]
    · simp only [q1ResultPy, hq, Option.map_some, Option.getD_some]
      refine List.all_eq_true.mpr ?_
      intro x hx
      rcases List.mem_map.mp hx with ⟨e, _, rfl⟩
      rfl

/-- C4 counterexample: a record whose date field is the non-null
string `not-a-date` (and whose username is non-null) does not yield
zero contributions — it contributes one increment to that malformed
date key — and running Q1 on it raises (the `strptime` conversion
fails, modelled as `none`), so the failure propagates to the caller. -/
theorem q1_extraction_counterexample :
    q1_memory [recBad] = none ∧ q1TopDates [recBad] = [("not-a-date", 1)] := by
  constructor
  · decide
  · decide

/-- C4 amended: Q1 extraction checks only that the date and the nested
username are present and non-null, not that the date is a valid
calendar date; a record passing the null filters always contributes,
and the query fails exactly when some selected top date string does not
parse as a calendar date (Q2 and Q3 involve no such conversion and are
total by construction). -/
theorem q1_extraction_partiality : ∀ recs : List Record,
    (q1_memory recs = none ↔ ∃ p ∈ q1TopDates recs, parseDate p.1 = none) ∧
    (∀ r : Record, (q1Row r).isSome = (r.date.isSome && r.username.isSome)) := by
  intro recs
  constructor
  · have h : ∀ row ∈ q1TopDates recs,
        (q1UserTop (q1Pairs recs) row.1).head?.isSome = true := by
      intro row hrow
      have h1 : row.1 ∈ (q1TopDates recs).map Prod.fst :=
        List.mem_map.mpr ⟨row, hrow, rfl⟩
      have h2 := mem_q1TopDates_keys h1
      rcases List.mem_map.mp h2 with ⟨p, hp, hpd⟩
      exact q1UserTop_head_isSome ⟨p, hp, hpd⟩
    exact q1Collect_eq_none_iff (q1Pairs recs) (q1TopDates recs) h
  · intro r
    rcases hd : r.date with _ | ds <;> rcases hu : r.username with _ | u <;>
      simp [q1Row, hd, hu]

/-- C5: for every query, every K, and every input, the Top-K selector
returns min(K, number of distinct extracted keys) entries; each query
applies it with K = 10, a source with zero usable contributions yields
an empty result rather than an error, and when K exceeds the number of
distinct keys all available entries are returned without padding. -/
theorem result_length_min : ∀ (k : Nat) (recs : List Record),
    (topKSel charLE k (countKeys (q2Keys recs))).length =
      min k (q2Keys recs).dedup.length ∧
    (q2_memory recs).length = min 10 (q2Keys recs).dedup.length ∧
    (q3_memory recs).length = min 10 (q3Keys recs).dedup.length ∧
    (q1TopDates recs).length = min 10 (q1Dates recs).dedup.length ∧
    (∀ l, q1_memory recs = some l → l.length = (q1TopDates recs).length) ∧
    q2_memory ([] : List Record) = [] ∧
    q3_memory ([] : List Record) = [] ∧
    q1_memory ([] : List Record) = some [] := by
  intro k recs
  refine ⟨?_, ?_, ?_, ?_, ?_, rfl, rfl, rfl⟩
  · rw [length_topKSel, length_countKeys]
  · show (topKSel charLE 10 (countKeys (q2Keys recs))).length = _
    rw [length_topKSel, length_countKeys]
  · show (topKSel strLE 10 (countKeys (q3Keys recs))).length = _
    rw [length_topKSel, length_countKeys]
  · show (topKSel strLE 10 (countKeys (q1Dates recs))).length = _
    rw [length_topKSel, length_countKeys]
  · intro l hl
    exact q1Collect_length (q1Pairs recs) (q1TopDates recs) l hl

/-- C5 witness: on a concrete four-record input Q1 succeeds and its
result length equals the length of the top-date row list. -/
theorem result_length_min_witness :
    ([((2021, 2, 1), "A"), ((2021, 2, 2), "C")] :
      List ((Nat × Nat × Nat) × String)).length =
      (q1TopDates [recA, recA2, recB, recC]).length :=
  (result_length_min 10 [recA, recA2, recB, recC]).2.2.2.2.1 _ (by decide)

/-- C6: in the Q1 primary pass, for every record, the key is the date
field truncated to its first 10 characters, and the record contributes
one increment to that date's count if and only if both the date field
and the nested author-handle field are present and non-null. -/
theorem q1_primary_extraction : ∀ (recs : List Record) (d : String),
    (q1Dates recs).count d =
      recs.countP fun r => (r.date.map strSlice10 == some d) && r.username.isSome :=
  q1Dates_count

/-- C7: in Q2, every emoji glyph occurrence in a record's text field
contributes exactly one increment to that glyph's count — a record may
contribute zero, one, or many increments and duplicate occurrences
count separately — and on the spec's scenario (contents with the
folded-hands glyph twice, once plus another glyph, and null) the
result starts with the folded-hands glyph at count 3. -/
theorem q2_emoji_occurrences :
    (∀ (recs : List Record) (g : Char),
      (q2Keys recs).count g =
        (recs.map fun r => (emojiList (r.content.getD "")).count g).sum) ∧
    q2_memory [recE1, recE2, recE3] = [('🙏', 3), ('😀', 1)] :=
  ⟨q2Keys_count, by decide⟩

/-- C8: in Q3, each entry of a record's mentioned-entities list
contributes one increment to the key given by its handle, but only
when the list field is present, non-null, and non-empty; null, missing,
and empty lists contribute nothing, as on the spec's scenario. -/
theorem q3_mention_contributions :
    (∀ (recs : List Record) (u : String),
      (q3Keys recs).count u =
        (recs.map fun r =>
          match r.mentionedUsers with
          | some l => if l.isEmpty then 0 else l.countP fun m => m.username == some u
          | none => 0).sum) ∧
    q3_memory [recM1, recM2, recM3, recM4] = [("X", 2), ("Y", 1)] :=
  ⟨q3Keys_count, by decide⟩

/-- C9 counterexample: on the empty source the Q1 memory-optimized
strategy performs one pass (the `top_dates` aggregation finds no
dates, so the per-date loop runs zero times), not 11. -/
theorem q1_memory_pass_counterexample :
    q1MemoryPasses [] = 1 ∧ q1MemoryPasses [] ≠ 11 := by
  constructor
  · decide
  · decide

/-- C9 amended: the Q1 memory-optimized strategy performs
1 + min(10, number of distinct usable dates) passes over the source —
one aggregation pass plus one pass per selected top date — which is 11
exactly when at least ten distinct dates exist. -/
theorem q1_memory_pass_count : ∀ recs : List Record,
    q1MemoryPasses recs = 1 + min 10 (q1Dates recs).dedup.length := by
  intro recs
  show 1 + (q1TopDates recs).length = _
  rw [show (q1TopDates recs).length =
    (topKSel strLE 10 (countKeys (q1Dates recs))).length from rfl,
    length_topKSel, length_countKeys]

/-- C10: in both Q1 implementations, for every date selected in the
primary top-10, the per-date user aggregation is non-empty, so the
access to its first row (`top_user["username"][0]`) always succeeds. -/
theorem q1_secondary_nonempty : ∀ (recs : List Record) (d : String),
    d ∈ (q1TopDates recs).map Prod.fst →
    q1UserTop (q1Pairs recs) d ≠ [] ∧
    (q1UserTop (q1Pairs recs) d).head?.isSome = true := by
  intro recs d h
  have hd := mem_q1TopDates_keys h
  rcases List.mem_map.mp hd with ⟨p, hp, hpd⟩
  exact ⟨q1UserTop_ne_nil ⟨p, hp, hpd⟩, q1UserTop_head_isSome ⟨p, hp, hpd⟩⟩

/-- C10 witness: on a concrete one-record input, the selected date's
user aggregation is non-empty and its first row exists. -/
theorem q1_secondary_nonempty_witness :
    q1UserTop (q1Pairs [recA]) "2021-02-01" ≠ [] ∧
    (q1UserTop (q1Pairs [recA]) "2021-02-01").head?.isSome = true :=
  q1_secondary_nonempty [recA] "2021-02-01" (by decide)
